import Mathlib

/-!
Shallow embedding of the alto-starter calendar-modification system.

The frontend calendar (TransactionCalendar, the modifications-aware version)
groups transactions by effective date after applying calendar modifications:
a non-planned modification with both dates relocates its transaction to
new_date, a planned modification injects a synthetic transaction at its date.
The API route exposes GET (modifications wrapper) and POST (suggestions).
Amounts are modelled as rationals; optional string fields as Option String,
with JavaScript truthiness made explicit.
-/

namespace Alto

/-- JavaScript truthiness of an optional string field: present and non-empty. -/
def truthy : Option String → Bool
  | some s => !(s == "")
  | none => false

/-- The status union of the CalendarModification interface. -/
inductive ModStatus
  | suggested
  | approved
deriving DecidableEq, Repr

/-- The CalendarModification interface of the calendar component:
optional original_date / new_date / date / type / category fields,
a merchant_name, a signed amount and a reason string. -/
structure CalendarModification where
  modification_id : String
  transaction_id : String
  merchant_name : String
  original_date : Option String := none
  new_date : Option String := none
  date : Option String := none
  amount : ℚ
  reason : String
  type : Option String := none
  category : Option String := none
  status : ModStatus
deriving DecidableEq, Repr

/-- The ModificationsData wrapper exchanged by the GET endpoint. -/
structure ModificationsData where
  modifications : List CalendarModification
  last_updated : Option String
deriving DecidableEq, Repr

/-- personal_finance_category of a Transaction. -/
structure PFCategory where
  primary : String
  detailed : String
deriving DecidableEq, Repr

/-- The Transaction entity consumed by the calendar (from the userData fixture),
extended with the isPlanned marker the calendar adds to synthetic entries. -/
structure Transaction where
  transaction_id : String
  name : String
  merchant_name : String
  date : String
  amount : ℚ
  personal_finance_category : PFCategory
  account_id : String
  authorized_date : String
  iso_currency_code : String
  pending : Bool
  payment_channel : String
  isPlanned : Bool := false
deriving DecidableEq, Repr

/-- The value stored in the movedTransactions map. -/
structure MovedInfo where
  newDate : String
  originalDate : String
  reason : String
deriving DecidableEq, Repr

/-- JavaScript Map.set on an association list: replace in place when the key
is present (keeping its position), otherwise append at the end. -/
def mapSet (l : List (String × MovedInfo)) (k : String) (v : MovedInfo) :
    List (String × MovedInfo) :=
  match l with
  | [] => [(k, v)]
  | (k', v') :: rest =>
      if k' == k then (k, v) :: rest else (k', v') :: mapSet rest k v

/-- JavaScript Map.get on an association list: first match. -/
def mapGet (l : List (String × MovedInfo)) (k : String) : Option MovedInfo :=
  match l with
  | [] => none
  | (k', v) :: rest => if k' == k then some v else mapGet rest k

/-- The guard of the movedTransactions loop:
`mod.type !== "planned" && mod.new_date && mod.original_date`. -/
def isMoveWithDates (m : CalendarModification) : Bool :=
  !(m.type == some "planned") && truthy m.new_date && truthy m.original_date

/-- One iteration of the movedTransactions forEach. -/
def movedStep (acc : List (String × MovedInfo)) (m : CalendarModification) :
    List (String × MovedInfo) :=
  if isMoveWithDates m then
    mapSet acc m.transaction_id
      ⟨m.new_date.getD "", m.original_date.getD "", m.reason⟩
  else acc

/-- The movedTransactions map: transaction_id to new/original date and reason,
built by iterating over the fetched modifications. -/
def movedTransactions (mods : List CalendarModification) :
    List (String × MovedInfo) :=
  mods.foldl movedStep []

/-- plannedTransactions: the modifications whose type is "planned". -/
def plannedTransactions (mods : List CalendarModification) :
    List CalendarModification :=
  mods.filter (fun m => m.type == some "planned")

/-- The transaction-like object the calendar builds for a planned modification
injected at date d. The primary category is the JavaScript truthiness default
`planned.category || "GENERAL_SERVICES"`: an absent or empty-string category
falls back to GENERAL_SERVICES. -/
def plannedToTransaction (p : CalendarModification) (d : String) : Transaction :=
  { transaction_id := p.transaction_id
    name := p.merchant_name
    merchant_name := p.merchant_name
    date := d
    amount := p.amount
    personal_finance_category :=
      { primary := match p.category with
          | some c => if c == "" then "GENERAL_SERVICES" else c
          | none => "GENERAL_SERVICES"
        detailed := "" }
    account_id := ""
    authorized_date := d
    iso_currency_code := "USD"
    pending := false
    payment_channel := "other"
    isPlanned := true }

/-- dateToUse of the transactionsByDate loop: the moved-to date when the
movedTransactions map has an entry, otherwise the original date. -/
def effDate (mv : List (String × MovedInfo)) (t : Transaction) : String :=
  match mapGet mv t.transaction_id with
  | some moved => moved.newDate
  | none => t.date

/-- What the first transactionsByDate loop pushes for a transaction. -/
def emitTransaction (mv : List (String × MovedInfo)) (t : Transaction) :
    Option (String × Transaction) :=
  some (effDate mv t, t)

/-- What the second transactionsByDate loop pushes for a planned modification:
guarded by `if (planned.date)` (truthiness of the date field). -/
def emitPlanned (p : CalendarModification) : Option (String × Transaction) :=
  match p.date with
  | some d => if d == "" then none else some (d, plannedToTransaction p d)
  | none => none

/-- A forEach loop that pushes an optional (date, transaction) pair per element
into the grouped accumulator; it returns the traversed list as the loop leaves
it together with the accumulator, making non-mutation of the input explicit. -/
def forEachPush {α : Type} (f : α → Option (String × Transaction)) :
    List α → List (String × Transaction) →
    List α × List (String × Transaction)
  | [], acc => ([], acc)
  | x :: rest, acc =>
      let acc' := match f x with
        | some p => acc ++ [p]
        | none => acc
      let r := forEachPush f rest acc'
      (x :: r.1, r.2)

/-- The grouped record of transactionsByDate, flattened to (date, transaction)
pairs in push order: first every input transaction at its effective date, then
every planned injection. -/
def appliedPairs (txs : List Transaction) (mods : List CalendarModification) :
    List (String × Transaction) :=
  let mv := movedTransactions mods
  let r1 := forEachPush (emitTransaction mv) txs []
  let r2 := forEachPush emitPlanned (plannedTransactions mods) r1.2
  r2.2

/-- transactionsByDate, read at one date: `grouped[d] || []`. -/
def transactionsByDate (txs : List Transaction)
    (mods : List CalendarModification) (d : String) : List Transaction :=
  ((appliedPairs txs mods).filter (fun pr => pr.1 == d)).map Prod.snd

/-- The wrapper the GET handler falls back to when the persisted file is
absent or unreadable. -/
def emptyModifications : ModificationsData :=
  { modifications := [], last_updated := none }

/-- The calendar-modifications GET handler: the result of reading and parsing
the persisted file is passed in (an error covers a missing, unreadable or
unparsable file, caught by the inner try/catch); the handler answers with an
HTTP status and a wrapper body. -/
def GET (read : Except String ModificationsData) : Nat × ModificationsData :=
  match read with
  | .ok d => (200, d)
  | .error _ => (200, emptyModifications)

/-- Modelled from the spec: the Ledger Store lives in the Python backend,
absent from src. Per section 4.4, apply supersedes (removes) any active
modification with the same transaction_id before inserting the new one. -/
def ledgerApply (s : List CalendarModification) (m : CalendarModification) :
    List CalendarModification :=
  (s.filter (fun x => !(x.transaction_id == m.transaction_id))) ++ [m]

/-- The ledger state after a sequence of apply calls starting from empty. -/
def ledgerApplyAll (mods : List CalendarModification) :
    List CalendarModification :=
  mods.foldl ledgerApply []

/-- Modelled from the spec: clear() removes all modifications for the session
(the backend deletes the calendar_modifications.json file), leaving no
persisted state. -/
def ledgerClear : Option ModificationsData → Option ModificationsData :=
  fun _ => none

/-- Reading the persisted state as the GET handler does: a missing file is a
read error (caught and turned into the empty wrapper). -/
def readPersisted : Option ModificationsData → Except String ModificationsData
  | some d => .ok d
  | none => .error "ENOENT"

/-- The two capabilities the dispatcher can route to. -/
inductive Capability
  | Scheduler
  | Education
deriving DecidableEq, Repr

/-- An inbound message as the dispatcher sees it: its text, whether
transaction-shaped data is attached, and its classification signals. -/
structure InboundMessage where
  text : String
  dataAttached : Bool
  referencesOwnData : Bool
  requestsOptimization : Bool
  conceptualQuery : Bool
deriving DecidableEq, Repr

/-- Modelled from the spec: the coordinator / root agent lives in the Python
backend, absent from src. Section 4.3 reduces routing to a deterministic
decision function: data presence is the deciding signal and overrides lexical
cues (Scenario D); without attached data, a message referencing the user's
own data or requesting optimization goes to the Scheduler, and conceptual or
ambiguous messages default to Education. -/
def dispatch (m : InboundMessage) : Capability :=
  if m.dataAttached then Capability.Scheduler
  else if m.referencesOwnData || m.requestsOptimization then Capability.Scheduler
  else Capability.Education

/-- The parsed body of the suggestions POST request. -/
structure SuggestBody where
  userId : Option String
  sessionId : Option String
deriving DecidableEq, Repr

/-- The outcome of the backend fetch the POST handler performs. -/
inductive BackendResult
  | ok (payload : String)
  | httpError (status : Nat)
  | networkError
deriving DecidableEq, Repr

/-- The response of the suggestions POST handler. -/
structure PostResponse where
  status : Nat
  suggestions : List String
  error : Option String
deriving DecidableEq, Repr

/-- The suggestions POST handler. The body argument is the result of
`await request.json()` (none when it throws, which the outer catch turns into
the default suggestions with HTTP 200). A falsy userId or sessionId yields
HTTP 400. Otherwise the backend is called; its payload is ignored on success,
and any failure is caught — both paths answer HTTP 200 with the same fixed
three suggestions. -/
def POST (body : Option SuggestBody) (backend : BackendResult) : PostResponse :=
  match body with
  | none =>
      { status := 200
        suggestions := ["Analyze my spending patterns",
                        "Optimize payment schedule",
                        "Review recurring subscriptions"]
        error := none }
  | some b =>
      if !truthy b.userId || !truthy b.sessionId then
        { status := 400
          suggestions := []
          error := some "userId and sessionId are required" }
      else
        match backend with
        | .ok _ =>
            { status := 200
              suggestions := ["Analyze my spending patterns",
                              "Optimize payment schedule",
                              "Review recurring subscriptions"]
              error := none }
        | _ =>
            { status := 200
              suggestions := ["Analyze my spending patterns",
                              "Optimize payment schedule",
                              "Review recurring subscriptions"]
              error := none }

/-- The fixed suggestion list both POST paths return. -/
def defaultSuggestions : List String :=
  ["Analyze my spending patterns",
   "Optimize payment schedule",
   "Review recurring subscriptions"]

/-- Follows the spec's words, not the code: section 3's CalendarModification
field contract specialized to the fields the claim singles out — a kind in
moved/planned (the code's nearest field is the optional type string), a
non-empty reason, and a status in suggested/approved. Stated for comparison
with the code's interface. -/
def specFieldContract (m : CalendarModification) : Prop :=
  (m.type = some "moved" ∨ m.type = some "planned") ∧
  m.reason ≠ "" ∧
  (m.status = ModStatus.suggested ∨ m.status = ModStatus.approved)

instance (m : CalendarModification) : Decidable (specFieldContract m) := by
  unfold specFieldContract; infer_instance

/-- The example modification record the repository documents as the GET
endpoint's exchanged payload (it carries no type field at all). -/
def exampleExchangedMod : CalendarModification :=
  { modification_id := "mod_1"
    transaction_id := "txn_010"
    merchant_name := "Avalon Apartments"
    original_date := some "2023-09-15"
    new_date := some "2023-09-05"
    date := none
    amount := 1200
    reason := "Moving rent payment earlier to avoid overdraft risk after utilities payment"
    type := none
    category := none
    status := ModStatus.suggested }

/-! ### Helper lemmas -/

theorem forEachPush_eq {α : Type} (f : α → Option (String × Transaction)) :
    ∀ (l : List α) (acc : List (String × Transaction)),
      forEachPush f l acc = (l, acc ++ l.filterMap f) := by
  intro l
  induction l with
  | nil => intro acc; simp [forEachPush]
  | cons x rest ih =>
      intro acc
      cases hfx : f x with
      | none => simp [forEachPush, hfx, ih]
      | some p => simp [forEachPush, hfx, ih]

theorem filterMap_emitTransaction (mv : List (String × MovedInfo))
    (txs : List Transaction) :
    txs.filterMap (emitTransaction mv) =
      txs.map (fun t => (effDate mv t, t)) := by
  induction txs with
  | nil => rfl
  | cons t rest ih => simp [emitTransaction, ih]

theorem appliedPairs_eq (txs : List Transaction)
    (mods : List CalendarModification) :
    appliedPairs txs mods =
      txs.map (fun t => (effDate (movedTransactions mods) t, t)) ++
        (plannedTransactions mods).filterMap emitPlanned := by
  simp [appliedPairs, forEachPush_eq, filterMap_emitTransaction]

theorem mapGet_mapSet_self (l : List (String × MovedInfo)) (k : String)
    (v : MovedInfo) : mapGet (mapSet l k v) k = some v := by
  induction l with
  | nil => simp [mapSet, mapGet]
  | cons p rest ih =>
      by_cases h : p.1 = k
      · simp [mapSet, mapGet, h]
      · simp [mapSet, mapGet, h, ih]

theorem mapGet_mapSet_ne (l : List (String × MovedInfo)) (k k' : String)
    (v : MovedInfo) (h : k' ≠ k) :
    mapGet (mapSet l k' v) k = mapGet l k := by
  induction l with
  | nil => simp [mapSet, mapGet, h]
  | cons p rest ih =>
      obtain ⟨pk, pv⟩ := p
      by_cases hp : pk = k'
      · subst hp
        simp [mapSet, mapGet, h]
      · by_cases hk : pk = k
        · subst hk
          simp [mapSet, mapGet, hp]
        · simp [mapSet, mapGet, hp, hk, ih]

theorem mapSet_mem_keys (l : List (String × MovedInfo)) (k : String)
    (v : MovedInfo) : ∀ q ∈ mapSet l k v, q.1 = k ∨ q ∈ l := by
  induction l with
  | nil =>
      intro q hq
      simp [mapSet] at hq
      left; simp [hq]
  | cons r rs ihr =>
      intro q hq
      obtain ⟨rk, rv⟩ := r
      by_cases hr : rk = k
      · subst hr
        simp [mapSet] at hq
        rcases hq with hq | hq
        · left; simp [hq]
        · right; simp [hq]
      · simp [mapSet, hr] at hq
        rcases hq with hq | hq
        · right; simp [hq]
        · rcases ihr q hq with hh | hh
          · left; exact hh
          · right; simp [hh]

theorem mapSet_keys_nodup (l : List (String × MovedInfo)) (k : String)
    (v : MovedInfo) (h : (l.map Prod.fst).Nodup) :
    ((mapSet l k v).map Prod.fst).Nodup := by
  induction l with
  | nil => simp [mapSet]
  | cons p rest ih =>
      obtain ⟨pk, pv⟩ := p
      simp only [List.map_cons, List.nodup_cons] at h
      by_cases hp : pk = k
      · have hmap : (mapSet ((pk, pv) :: rest) k v).map Prod.fst
            = k :: rest.map Prod.fst := by
          simp [mapSet, hp]
        rw [hmap]
        exact List.nodup_cons.mpr ⟨hp ▸ h.1, h.2⟩
      · have hrest := ih h.2
        have hknotin : pk ∉ (mapSet rest k v).map Prod.fst := by
          intro hmem
          rcases List.mem_map.mp hmem with ⟨q, hq, hq1⟩
          rcases mapSet_mem_keys rest k v q hq with hh | hh
          · exact hp (hq1 ▸ hh)
          · exact h.1 (hq1 ▸ List.mem_map_of_mem Prod.fst hh)
        have hmap : (mapSet ((pk, pv) :: rest) k v).map Prod.fst
            = pk :: (mapSet rest k v).map Prod.fst := by
          simp [mapSet, hp]
        rw [hmap]
        exact List.nodup_cons.mpr ⟨hknotin, hrest⟩


theorem foldl_movedStep_keys_nodup (mods : List CalendarModification) :
    ∀ acc : List (String × MovedInfo), (acc.map Prod.fst).Nodup →
      ((mods.foldl movedStep acc).map Prod.fst).Nodup := by
  induction mods with
  | nil => intro acc h; simpa using h
  | cons m rest ih =>
      intro acc h
      simp only [List.foldl_cons]
      apply ih
      unfold movedStep
      by_cases hm : isMoveWithDates m = true
      · simpa [hm] using mapSet_keys_nodup acc m.transaction_id _ h
      · simpa [hm] using h

theorem movedTransactions_keys_nodup (mods : List CalendarModification) :
    ((movedTransactions mods).map Prod.fst).Nodup :=
  foldl_movedStep_keys_nodup mods [] (by simp)

theorem movedTransactions_snoc (mods : List CalendarModification)
    (m : CalendarModification) :
    movedTransactions (mods ++ [m]) = movedStep (movedTransactions mods) m := by
  simp [movedTransactions, List.foldl_append]

theorem mapGet_foldl_movedStep_none (mods : List CalendarModification)
    (k : String) (h : ∀ m ∈ mods, isMoveWithDates m = true →
      m.transaction_id ≠ k) :
    ∀ acc : List (String × MovedInfo),
      mapGet (mods.foldl movedStep acc) k = mapGet acc k := by
  induction mods with
  | nil => intro acc; rfl
  | cons m rest ih =>
      intro acc
      simp only [List.foldl_cons]
      have hrest : ∀ m' ∈ rest, isMoveWithDates m' = true →
          m'.transaction_id ≠ k := fun m' hm' => h m' (by simp [hm'])
      rw [ih hrest]
      unfold movedStep
      by_cases hm : isMoveWithDates m = true
      · have hne : m.transaction_id ≠ k := h m (by simp) hm
        simp [hm, mapGet_mapSet_ne _ _ _ _ hne]
      · simp [hm]

theorem sum_map_ite (ds : List String) (d0 : String) (f : String → ℚ) (a : ℚ)
    (hnd : ds.Nodup) (hd0 : d0 ∈ ds) :
    (ds.map (fun d => if d0 == d then a + f d else f d)).sum
      = a + (ds.map f).sum := by
  induction ds with
  | nil => cases hd0
  | cons d ds' ih =>
      rcases List.nodup_cons.mp hnd with ⟨hdnot, hnd'⟩
      rcases List.mem_cons.mp hd0 with h0 | h0
      · subst h0
        have htail : ds'.map (fun d => if d0 == d then a + f d else f d)
            = ds'.map f := by
          apply List.map_congr_left
          intro x hx
          have : d0 ≠ x := fun he => hdnot (he ▸ hx)
          simp [this]
        have hhead : (if (d0 == d0) = true then a + f d0 else f d0)
            = a + f d0 := by simp
        rw [List.map_cons, List.sum_cons, hhead, htail, List.map_cons,
          List.sum_cons]
        ring
      · have hne : d0 ≠ d := fun he => hdnot (he ▸ h0)
        have hhead : (if (d0 == d) = true then a + f d else f d) = f d := by
          simp [hne]
        rw [List.map_cons, List.sum_cons, hhead, ih hnd' h0, List.map_cons,
          List.sum_cons]
        ring

theorem sum_partition (pairs : List (String × Transaction)) (ds : List String)
    (hnd : ds.Nodup) (hcov : ∀ pr ∈ pairs, pr.1 ∈ ds) :
    (ds.map (fun d =>
        (((pairs.filter (fun pr => pr.1 == d)).map Prod.snd).map
          (fun t => t.amount)).sum)).sum
      = (pairs.map (fun pr => pr.2.amount)).sum := by
  induction pairs with
  | nil => simp
  | cons pr rest ih =>
      have hprd : pr.1 ∈ ds := hcov pr (by simp)
      have hcov' : ∀ q ∈ rest, q.1 ∈ ds := fun q hq => hcov q (by simp [hq])
      have hpoint : ∀ d ∈ ds,
          ((((pr :: rest).filter (fun x => x.1 == d)).map Prod.snd).map
            (fun t => t.amount)).sum
          = if pr.1 == d then
              pr.2.amount +
                (((rest.filter (fun x => x.1 == d)).map Prod.snd).map
                  (fun t => t.amount)).sum
            else
              (((rest.filter (fun x => x.1 == d)).map Prod.snd).map
                (fun t => t.amount)).sum := by
        intro d _
        by_cases hd : pr.1 = d
        · simp [List.filter_cons, hd]
        · simp [List.filter_cons, hd]
      rw [List.map_congr_left hpoint]
      rw [sum_map_ite ds pr.1 _ pr.2.amount hnd hprd]
      rw [ih hcov']
      simp

theorem filterMap_emitPlanned_sum (l : List CalendarModification)
    (h : ∀ m ∈ l, truthy m.date = true) :
    ((l.filterMap emitPlanned).map (fun pr => pr.2.amount)).sum
      = (l.map (fun m => m.amount)).sum := by
  induction l with
  | nil => simp
  | cons p rest ih =>
      have hp : truthy p.date = true := h p (by simp)
      have hrest : ∀ m ∈ rest, truthy m.date = true :=
        fun m hm => h m (by simp [hm])
      cases hd : p.date with
      | none => rw [hd] at hp; simp [truthy] at hp
      | some d =>
          rw [hd] at hp
          have hdne : ¬(d = "") := by
            intro he
            rw [he] at hp
            simp [truthy] at hp
          have hemit : emitPlanned p = some (d, plannedToTransaction p d) := by
            simp [emitPlanned, hd, hdne]
          simp only [List.filterMap_cons, hemit, List.map_cons,
            List.sum_cons, ih hrest]
          simp [plannedToTransaction]

theorem appliedPairs_snds (txs : List Transaction)
    (mods : List CalendarModification) :
    (appliedPairs txs mods).map Prod.snd
      = txs ++ ((plannedTransactions mods).filterMap emitPlanned).map
          Prod.snd := by
  rw [appliedPairs_eq, List.map_append, List.map_map]
  congr 1
  show txs.map (fun t => t) = txs
  simp

theorem emitPlanned_isPlanned (p : CalendarModification)
    (pr : String × Transaction) (h : emitPlanned p = some pr) :
    pr.2.isPlanned = true := by
  cases hd : p.date with
  | none => simp [emitPlanned, hd] at h
  | some d =>
      by_cases hde : d = ""
      · simp [emitPlanned, hd, hde] at h
      · have hsome : emitPlanned p = some (d, plannedToTransaction p d) := by
          simp [emitPlanned, hd, hde]
        rw [hsome] at h
        have h' := Option.some.inj h
        rw [← h']
        simp [plannedToTransaction]

theorem mem_transactionsByDate (txs : List Transaction)
    (mods : List CalendarModification) (d : String) (t : Transaction) :
    t ∈ transactionsByDate txs mods d ↔ (d, t) ∈ appliedPairs txs mods := by
  unfold transactionsByDate
  constructor
  · intro h
    rcases List.mem_map.mp h with ⟨pr, hpr, hsnd⟩
    rcases List.mem_filter.mp hpr with ⟨hmem, hfst⟩
    obtain ⟨a, b⟩ := pr
    simp at hfst
    simp at hsnd
    rw [← hfst, ← hsnd]
    exact hmem
  · intro h
    exact List.mem_map.mpr ⟨(d, t), List.mem_filter.mpr ⟨h, by simp⟩, rfl⟩

theorem mem_appliedPairs_of_tx (txs : List Transaction)
    (mods : List CalendarModification) (t : Transaction) (ht : t ∈ txs) :
    (effDate (movedTransactions mods) t, t) ∈ appliedPairs txs mods := by
  rw [appliedPairs_eq]
  exact List.mem_append_left _
    (List.mem_map_of_mem (fun t => (effDate (movedTransactions mods) t, t)) ht)

theorem appliedPairs_cases (txs : List Transaction)
    (mods : List CalendarModification) (pr : String × Transaction)
    (h : pr ∈ appliedPairs txs mods) :
    (∃ t ∈ txs, pr = (effDate (movedTransactions mods) t, t))
    ∨ (∃ p ∈ plannedTransactions mods, emitPlanned p = some pr) := by
  rw [appliedPairs_eq] at h
  rcases List.mem_append.mp h with h | h
  · rcases List.mem_map.mp h with ⟨t, ht, heq⟩
    exact Or.inl ⟨t, ht, heq.symm⟩
  · rcases List.mem_filterMap.mp h with ⟨p, hp, hemit⟩
    exact Or.inr ⟨p, hp, hemit⟩

theorem ledgerApply_keys_nodup (s : List CalendarModification)
    (m : CalendarModification)
    (h : (s.map (fun x => x.transaction_id)).Nodup) :
    ((ledgerApply s m).map (fun x => x.transaction_id)).Nodup := by
  unfold ledgerApply
  rw [List.map_append]
  refine List.Nodup.append ?_ (by simp) ?_
  · exact ((List.filter_sublist s).map (fun x => x.transaction_id)).nodup h
  · intro a ha hb
    simp at hb
    rcases List.mem_map.mp ha with ⟨x, hx, hxa⟩
    rcases List.mem_filter.mp hx with ⟨_, hxne⟩
    simp at hxne
    exact hxne (hxa.symm ▸ hb ▸ rfl)

theorem foldl_ledgerApply_keys_nodup (mods : List CalendarModification) :
    ∀ acc : List CalendarModification,
      (acc.map (fun x => x.transaction_id)).Nodup →
      ((mods.foldl ledgerApply acc).map (fun x => x.transaction_id)).Nodup := by
  induction mods with
  | nil => intro acc h; simpa using h
  | cons m rest ih =>
      intro acc h
      simp only [List.foldl_cons]
      exact ih _ (ledgerApply_keys_nodup acc m h)

/-! ### Concrete fixtures for witnesses -/

/-- A rent transaction on its original date. -/
def exampleTx1 : Transaction :=
  { transaction_id := "txn_010"
    name := "Rent"
    merchant_name := "Avalon Apartments"
    date := "2025-10-15"
    amount := -1200
    personal_finance_category := { primary := "UTILITIES", detailed := "RENT" }
    account_id := "acc_1"
    authorized_date := "2025-10-15"
    iso_currency_code := "USD"
    pending := false
    payment_channel := "other" }

/-- An income transaction that no modification touches. -/
def exampleTx2 : Transaction :=
  { transaction_id := "txn_011"
    name := "Paycheck"
    merchant_name := "Employer"
    date := "2025-10-01"
    amount := 2400
    personal_finance_category := { primary := "INCOME", detailed := "WAGES" }
    account_id := "acc_1"
    authorized_date := "2025-10-01"
    iso_currency_code := "USD"
    pending := false
    payment_channel := "other" }

def exampleTxs : List Transaction := [exampleTx1, exampleTx2]

/-- A well-formed moved modification relocating the rent transaction. -/
def exampleMove : CalendarModification :=
  { modification_id := "mod_1"
    transaction_id := "txn_010"
    merchant_name := "Avalon Apartments"
    original_date := some "2025-10-15"
    new_date := some "2025-10-20"
    amount := -1200
    reason := "avoid overdraft"
    status := ModStatus.suggested }

/-- An earlier move of the same transaction, later superseded. -/
def exampleMoveOld : CalendarModification :=
  { modification_id := "mod_0"
    transaction_id := "txn_010"
    merchant_name := "Avalon Apartments"
    original_date := some "2025-10-15"
    new_date := some "2025-10-18"
    amount := -1200
    reason := "first attempt"
    status := ModStatus.suggested }

/-- A planned modification injecting a savings transfer. -/
def examplePlanned : CalendarModification :=
  { modification_id := "mod_2"
    transaction_id := "planned_1"
    merchant_name := "Savings"
    date := some "2025-10-05"
    amount := -200
    reason := "build buffer"
    type := some "planned"
    category := some "TRANSFER_OUT"
    status := ModStatus.suggested }

/-- A move-classified modification with no original_date: the calendar
silently skips it. -/
def exampleBadMove : CalendarModification :=
  { modification_id := "mod_3"
    transaction_id := "txn_010"
    merchant_name := "Avalon Apartments"
    original_date := none
    new_date := some "2025-10-22"
    amount := -1200
    reason := "incomplete"
    status := ModStatus.suggested }

def exampleMods : List CalendarModification := [exampleMove, examplePlanned]

/-! ### Claim theorems -/

/-- C1: Conservation. For every transaction list and modification set (with
planned modifications carrying a date, as invariant I2 requires), summing the
per-day amounts of the applied timeline over any duplicate-free list of days
covering the window yields the original total plus the total of newly planned
amounts; and every original (non-synthetic) transaction appears exactly once
across the grouping — no amount is lost or duplicated by a move. -/
theorem conservation_of_amounts (txs : List Transaction)
    (mods : List CalendarModification) (ds : List String) (t : Transaction)
    (hplanned : ∀ m ∈ plannedTransactions mods, truthy m.date = true)
    (hnd : ds.Nodup)
    (hcov : ∀ pr ∈ appliedPairs txs mods, pr.1 ∈ ds)
    (ht : t.isPlanned = false) :
    (ds.map (fun d =>
        ((transactionsByDate txs mods d).map (fun x => x.amount)).sum)).sum
      = (txs.map (fun x => x.amount)).sum
          + ((plannedTransactions mods).map (fun m => m.amount)).sum
    ∧ ((appliedPairs txs mods).map Prod.snd).count t = txs.count t := by
  constructor
  · have hpart := sum_partition (appliedPairs txs mods) ds hnd hcov
    have hlhs : (ds.map (fun d =>
        ((transactionsByDate txs mods d).map (fun x => x.amount)).sum)).sum
        = (ds.map (fun d =>
            ((((appliedPairs txs mods).filter
                (fun pr => pr.1 == d)).map Prod.snd).map
              (fun x => x.amount)).sum)).sum := rfl
    rw [hlhs, hpart, appliedPairs_eq, List.map_append, List.sum_append]
    congr 1
    · rw [List.map_map]
      rfl
    · exact filterMap_emitPlanned_sum (plannedTransactions mods) hplanned
  · rw [appliedPairs_snds, List.count_append]
    have hzero : (((plannedTransactions mods).filterMap emitPlanned).map
        Prod.snd).count t = 0 := by
      apply List.count_eq_zero.mpr
      intro hmem
      rcases List.mem_map.mp hmem with ⟨pr, hpr, hsnd⟩
      rcases List.mem_filterMap.mp hpr with ⟨p, _, hemit⟩
      have hpl := emitPlanned_isPlanned p pr hemit
      rw [hsnd, ht] at hpl
      cases hpl
    rw [hzero]
    exact Nat.add_zero _

theorem conservation_of_amounts_witness :
    (["2025-10-20", "2025-10-01", "2025-10-05"].map (fun d =>
        ((transactionsByDate exampleTxs exampleMods d).map
          (fun x => x.amount)).sum)).sum
      = (exampleTxs.map (fun x => x.amount)).sum
          + ((plannedTransactions exampleMods).map (fun m => m.amount)).sum
    ∧ ((appliedPairs exampleTxs exampleMods).map Prod.snd).count exampleTx1
        = exampleTxs.count exampleTx1 :=
  conservation_of_amounts exampleTxs exampleMods
    ["2025-10-20", "2025-10-01", "2025-10-05"] exampleTx1
    (by decide) (by decide) (by decide) (by decide)

/-- C2: at most one active modification per transaction_id. The frontend's
movedTransactions map never holds two entries for one transaction_id, the
spec-modelled ledger apply sequence keeps transaction ids duplicate-free
after every call, and a later modification for the same transaction_id
replaces the earlier entry (lookup after appending it returns its data). -/
theorem at_most_one_per_transaction (mods : List CalendarModification)
    (m : CalendarModification) :
    ((movedTransactions mods).map Prod.fst).Nodup
    ∧ ((ledgerApplyAll mods).map (fun x => x.transaction_id)).Nodup
    ∧ (isMoveWithDates m = true →
        mapGet (movedTransactions (mods ++ [m])) m.transaction_id
          = some ⟨m.new_date.getD "", m.original_date.getD "", m.reason⟩) := by
  refine ⟨movedTransactions_keys_nodup mods,
    foldl_ledgerApply_keys_nodup mods [] (by simp), ?_⟩
  intro hm
  rw [movedTransactions_snoc]
  unfold movedStep
  rw [if_pos hm]
  exact mapGet_mapSet_self _ _ _

theorem at_most_one_per_transaction_witness :
    mapGet (movedTransactions ([exampleMoveOld] ++ [exampleMove]))
      exampleMove.transaction_id
      = some ⟨"2025-10-20", "2025-10-15", "avoid overdraft"⟩ :=
  (at_most_one_per_transaction [exampleMoveOld] exampleMove).2.2 (by decide)

/-- C3: applying modifications to the timeline. A transaction with an entry
in the moved map lands in the group of that entry's new date; a transaction
with no entry keeps its original date; a planned modification with a date
injects its synthetic transaction at that date, and that synthetic
transaction carries the modification's amount and — when the category is
truthy — the modification's category (falling back to GENERAL_SERVICES for
an absent or empty one); a non-synthetic transaction only ever appears
under its effective date; and for a single well-formed moved modification
the effective date is exactly the modification's new_date. -/
theorem applies_modifications_to_timeline (txs : List Transaction)
    (mods : List CalendarModification) (t : Transaction)
    (m : CalendarModification) (d : String) :
    (∀ info, mapGet (movedTransactions mods) t.transaction_id = some info →
        t ∈ txs → t ∈ transactionsByDate txs mods info.newDate)
    ∧ (mapGet (movedTransactions mods) t.transaction_id = none →
        t ∈ txs → t ∈ transactionsByDate txs mods t.date)
    ∧ (m ∈ plannedTransactions mods → m.date = some d → d ≠ "" →
        plannedToTransaction m d ∈ transactionsByDate txs mods d)
    ∧ (plannedToTransaction m d).amount = m.amount
    ∧ (truthy m.category = true →
        (plannedToTransaction m d).personal_finance_category.primary
          = m.category.getD "")
    ∧ (truthy m.category = false →
        (plannedToTransaction m d).personal_finance_category.primary
          = "GENERAL_SERVICES")
    ∧ (t.isPlanned = false → t ∈ transactionsByDate txs mods d →
        d = effDate (movedTransactions mods) t)
    ∧ (isMoveWithDates m = true → m.transaction_id = t.transaction_id →
        t ∈ txs →
        t ∈ transactionsByDate txs [m] (m.new_date.getD "")) := by
  refine ⟨?_, ?_, ?_, rfl, ?_, ?_, ?_, ?_⟩
  · intro info hinfo htx
    have heff : effDate (movedTransactions mods) t = info.newDate := by
      unfold effDate; rw [hinfo]
    rw [mem_transactionsByDate, ← heff]
    exact mem_appliedPairs_of_tx txs mods t htx
  · intro hnone htx
    have heff : effDate (movedTransactions mods) t = t.date := by
      unfold effDate; rw [hnone]
    rw [mem_transactionsByDate, ← heff]
    exact mem_appliedPairs_of_tx txs mods t htx
  · intro hm hdate hdne
    rw [mem_transactionsByDate, appliedPairs_eq]
    apply List.mem_append_right
    apply List.mem_filterMap.mpr
    exact ⟨m, hm, by simp [emitPlanned, hdate, hdne]⟩
  · intro hcat
    cases hc : m.category with
    | none => rw [hc] at hcat; simp [truthy] at hcat
    | some c =>
        rw [hc] at hcat
        have hne : ¬(c = "") := by
          intro he
          rw [he] at hcat
          simp [truthy] at hcat
        simp [plannedToTransaction, hc, hne]
  · intro hcat
    cases hc : m.category with
    | none => simp [plannedToTransaction, hc]
    | some c =>
        rw [hc] at hcat
        have he : c = "" := by
          revert hcat
          simp [truthy]
        simp [plannedToTransaction, hc, he]
  · intro hfalse hmem
    rw [mem_transactionsByDate] at hmem
    rcases appliedPairs_cases txs mods (d, t) hmem with ⟨t', _, heq⟩ | ⟨p, _, hemit⟩
    · have h1 : d = effDate (movedTransactions mods) t' := congrArg Prod.fst heq
      have h2 : t = t' := congrArg Prod.snd heq
      rw [h1, ← h2]
    · have := emitPlanned_isPlanned p (d, t) hemit
      simp at this
      rw [this] at hfalse
      cases hfalse
  · intro hm hid htx
    have hmap : movedTransactions [m]
        = [(m.transaction_id,
            ⟨m.new_date.getD "", m.original_date.getD "", m.reason⟩)] := by
      unfold movedTransactions movedStep
      simp [hm, mapSet]
    have hinfo : mapGet (movedTransactions [m]) t.transaction_id
        = some ⟨m.new_date.getD "", m.original_date.getD "", m.reason⟩ := by
      rw [hmap, ← hid]
      simp [mapGet]
    have heff : effDate (movedTransactions [m]) t = m.new_date.getD "" := by
      unfold effDate; rw [hinfo]
    rw [mem_transactionsByDate, ← heff]
    exact mem_appliedPairs_of_tx txs [m] t htx

theorem applies_modifications_to_timeline_witness :
    exampleTx1 ∈ transactionsByDate exampleTxs exampleMods "2025-10-20"
    ∧ plannedToTransaction examplePlanned "2025-10-05"
        ∈ transactionsByDate exampleTxs exampleMods "2025-10-05"
    ∧ (plannedToTransaction examplePlanned
        "2025-10-05").personal_finance_category.primary = "TRANSFER_OUT"
    ∧ exampleTx2 ∈ transactionsByDate exampleTxs exampleMods "2025-10-01" :=
  ⟨(applies_modifications_to_timeline exampleTxs exampleMods exampleTx1
      examplePlanned "2025-10-05").1
      ⟨"2025-10-20", "2025-10-15", "avoid overdraft"⟩ (by decide) (by decide),
   (applies_modifications_to_timeline exampleTxs exampleMods exampleTx1
      examplePlanned "2025-10-05").2.2.1 (by decide) (by decide) (by decide),
   (applies_modifications_to_timeline exampleTxs exampleMods exampleTx1
      examplePlanned "2025-10-05").2.2.2.2.1 (by decide),
   (applies_modifications_to_timeline exampleTxs exampleMods exampleTx2
      examplePlanned "2025-10-05").2.1 (by decide) (by decide)⟩

/-- C4: when the persisted modifications file is absent or unreadable, the
GET endpoint answers HTTP 200 with the wrapper of an empty modification list
and a null last_updated — never an error. -/
theorem get_absent_state_not_error (e : String) :
    GET (Except.error e) = (200, emptyModifications)
    ∧ emptyModifications.modifications = []
    ∧ emptyModifications.last_updated = none
    ∧ GET (readPersisted none) = (200, emptyModifications) :=
  ⟨rfl, rfl, rfl, rfl⟩

/-- C5: determinism and purity of the projection/application. Two runs on
identical inputs produce identical groupings, and each forEach loop of the
computation returns its traversed input list unchanged (the inputs are not
mutated). -/
theorem projection_deterministic_pure (txs₁ txs₂ : List Transaction)
    (mods₁ mods₂ : List CalendarModification)
    (h1 : txs₁ = txs₂) (h2 : mods₁ = mods₂) :
    (∀ d, transactionsByDate txs₁ mods₁ d = transactionsByDate txs₂ mods₂ d)
    ∧ appliedPairs txs₁ mods₁ = appliedPairs txs₂ mods₂
    ∧ (forEachPush (emitTransaction (movedTransactions mods₁)) txs₁ []).1
        = txs₁
    ∧ (forEachPush emitPlanned (plannedTransactions mods₁)
        ((forEachPush (emitTransaction (movedTransactions mods₁))
          txs₁ []).2)).1
        = plannedTransactions mods₁ := by
  subst h1
  subst h2
  exact ⟨fun d => rfl, rfl, by rw [forEachPush_eq], by rw [forEachPush_eq]⟩

theorem projection_deterministic_pure_witness :
    appliedPairs exampleTxs exampleMods = appliedPairs exampleTxs exampleMods
    ∧ (forEachPush (emitTransaction (movedTransactions exampleMods))
        exampleTxs []).1 = exampleTxs :=
  ⟨(projection_deterministic_pure exampleTxs exampleTxs exampleMods
      exampleMods rfl rfl).2.1,
   (projection_deterministic_pure exampleTxs exampleTxs exampleMods
      exampleMods rfl rfl).2.2.1⟩

/-- C6: dispatcher routing is a deterministic decision function with data
presence as the deciding signal: any message with transaction-shaped data
attached routes to the Scheduler regardless of its text, an ambiguous
message without data routes to Education, and exactly one capability is
always chosen. -/
theorem dispatcher_data_presence (m : InboundMessage) :
    (m.dataAttached = true → dispatch m = Capability.Scheduler)
    ∧ (m.dataAttached = false → m.referencesOwnData = false →
        m.requestsOptimization = false → dispatch m = Capability.Education)
    ∧ ((dispatch m = Capability.Scheduler
          ∧ dispatch m ≠ Capability.Education)
        ∨ (dispatch m = Capability.Education
          ∧ dispatch m ≠ Capability.Scheduler)) := by
  unfold dispatch
  refine ⟨fun h => by simp [h], fun h1 h2 h3 => by simp [h1, h2, h3], ?_⟩
  by_cases h : m.dataAttached = true
  · simp [h]
  · by_cases h2 : (m.referencesOwnData || m.requestsOptimization) = true
    · simp [h, h2]
    · simp [h, h2]

/-- Scenario D's message: educational text with transaction data attached. -/
def scenarioDMessage : InboundMessage :=
  { text := "what is an emergency fund"
    dataAttached := true
    referencesOwnData := false
    requestsOptimization := false
    conceptualQuery := true }

/-- The same text with no data attached: an ambiguous, conceptual query. -/
def conceptualMessage : InboundMessage :=
  { text := "what is an emergency fund"
    dataAttached := false
    referencesOwnData := false
    requestsOptimization := false
    conceptualQuery := true }

theorem dispatcher_data_presence_witness :
    dispatch scenarioDMessage = Capability.Scheduler
    ∧ dispatch conceptualMessage = Capability.Education :=
  ⟨(dispatcher_data_presence scenarioDMessage).1 rfl,
   (dispatcher_data_presence conceptualMessage).2.1 rfl rfl rfl⟩

/-- C7 counterexample: the modification record the repository documents as
the GET endpoint's exchanged payload carries no kind (type) field at all —
the calendar still treats it as a moved modification — so the spec's field
contract (kind in moved/planned) fails on it. -/
theorem spec_field_contract_fails :
    mapGet (movedTransactions [exampleExchangedMod]) "txn_010"
      = some ⟨"2023-09-05", "2023-09-15",
          "Moving rent payment earlier to avoid overdraft risk after utilities payment"⟩
    ∧ ¬ specFieldContract exampleExchangedMod := by
  exact ⟨by decide, by decide⟩

/-- C7 amended: exchanged records follow the code's interface, not §3's
field list: status is always one of suggested/approved, the kind information
is the optional type string (planned exactly when it equals "planned",
anything else — including an absent field — read as a move), reason is an
arbitrary string, and the wrapper passes through GET unchanged. -/
theorem code_field_contract (m : CalendarModification)
    (mods : List CalendarModification) (w : ModificationsData) :
    (m.status = ModStatus.suggested ∨ m.status = ModStatus.approved)
    ∧ (m ∈ plannedTransactions mods ↔ m ∈ mods ∧ m.type = some "planned")
    ∧ GET (Except.ok w) = (200, w) := by
  refine ⟨?_, ?_, rfl⟩
  · cases h : m.status
    · exact Or.inl rfl
    · exact Or.inr rfl
  · simp [plannedTransactions, List.mem_filter]

/-- An exchanged wrapper holding the example modifications. -/
def exampleWrapper : ModificationsData :=
  { modifications := exampleMods
    last_updated := some "2025-10-01T00:00:00.000Z" }

theorem code_field_contract_witness :
    (examplePlanned.status = ModStatus.suggested
      ∨ examplePlanned.status = ModStatus.approved)
    ∧ (examplePlanned ∈ plannedTransactions exampleMods
        ↔ examplePlanned ∈ exampleMods
            ∧ examplePlanned.type = some "planned")
    ∧ GET (Except.ok exampleWrapper) = (200, exampleWrapper) :=
  code_field_contract examplePlanned exampleMods exampleWrapper

/-- C8: idempotence of clear. Clearing twice equals clearing once, clearing
an already-empty ledger is a no-op rather than an error, and a GET after the
backing state has been removed yields the same empty wrapper as after a
single clear. -/
theorem clear_idempotent (s : Option ModificationsData) :
    ledgerClear (ledgerClear s) = ledgerClear s
    ∧ ledgerClear none = none
    ∧ GET (readPersisted (ledgerClear s)) = (200, emptyModifications)
    ∧ GET (readPersisted (ledgerClear (ledgerClear s)))
        = GET (readPersisted (ledgerClear s)) :=
  ⟨rfl, rfl, rfl, rfl⟩

/-- C9: a fetched modification is classified planned exactly when its type
field equals "planned"; one with no type field is treated as a move (and,
given both dates, enters the moved map); a move-classified modification
missing a truthy new_date or original_date is silently skipped, so when no
well-formed move targets a transaction it stays grouped on its original
date, with no error raised. -/
theorem planned_classification_and_skip (mods : List CalendarModification)
    (m : CalendarModification) (txs : List Transaction) (t : Transaction) :
    (m ∈ plannedTransactions mods ↔ m ∈ mods ∧ m.type = some "planned")
    ∧ (m.type = none → truthy m.new_date = true →
        truthy m.original_date = true → isMoveWithDates m = true)
    ∧ (truthy m.new_date = false ∨ truthy m.original_date = false →
        isMoveWithDates m = false ∧ movedTransactions [m] = [])
    ∧ ((∀ m' ∈ mods, isMoveWithDates m' = true →
          m'.transaction_id ≠ t.transaction_id) →
        t ∈ txs → t ∈ transactionsByDate txs mods t.date) := by
  refine ⟨?_, ?_, ?_, ?_⟩
  · simp [plannedTransactions, List.mem_filter]
  · intro htype hnew horig
    unfold isMoveWithDates
    rw [htype, hnew, horig]
    rfl
  · intro hbad
    have hfalse : isMoveWithDates m = false := by
      unfold isMoveWithDates
      rcases hbad with h | h
      · rw [h]; simp
      · rw [h]; simp
    refine ⟨hfalse, ?_⟩
    unfold movedTransactions movedStep
    simp [hfalse]
  · intro hnone htx
    have hget : mapGet (movedTransactions mods) t.transaction_id = none := by
      have := mapGet_foldl_movedStep_none mods t.transaction_id hnone []
      unfold movedTransactions
      rw [this]
      rfl
    have heff : effDate (movedTransactions mods) t = t.date := by
      unfold effDate; rw [hget]
    rw [mem_transactionsByDate, ← heff]
    exact mem_appliedPairs_of_tx txs mods t htx

theorem planned_classification_and_skip_witness :
    (isMoveWithDates exampleBadMove = false
      ∧ movedTransactions [exampleBadMove] = [])
    ∧ exampleTx1 ∈ transactionsByDate exampleTxs [exampleBadMove]
        "2025-10-15" :=
  ⟨(planned_classification_and_skip [exampleBadMove] exampleBadMove
      exampleTxs exampleTx1).2.2.1 (by decide),
   (planned_classification_and_skip [exampleBadMove] exampleBadMove
      exampleTxs exampleTx1).2.2.2 (by decide) (by decide)⟩

/-- C10 counterexample to the claim as stated: a request whose body fails to
parse has no userId at all, yet the handler answers HTTP 200 with the
default suggestions rather than 400; and a request containing both fields
(userId present but empty) is answered 400 with no suggestion list. -/
theorem post_status_counterexample :
    (POST none (BackendResult.ok "ignored")).status = 200
    ∧ (POST none (BackendResult.ok "ignored")).suggestions
        = defaultSuggestions
    ∧ (POST (some { userId := some "", sessionId := some "session_1" })
        (BackendResult.ok "ignored")).status = 400 :=
  ⟨rfl, rfl, rfl⟩

/-- C10 amended: the POST handler returns the fixed three suggestions with
HTTP 200 for every request whose body parses with a truthy (present,
non-empty) userId and sessionId, whatever the backend returns or however it
fails; an unparsable body also yields HTTP 200 with those same defaults; and
the status is 400 exactly when the body parses but userId or sessionId is
absent or empty. -/
theorem post_fixed_suggestions (b : SuggestBody) (backend : BackendResult)
    (body : Option SuggestBody) :
    (truthy b.userId = true → truthy b.sessionId = true →
        POST (some b) backend
          = { status := 200, suggestions := defaultSuggestions,
              error := none })
    ∧ POST none backend
        = { status := 200, suggestions := defaultSuggestions, error := none }
    ∧ ((POST body backend).status = 400 ↔
        ∃ b', body = some b'
          ∧ (truthy b'.userId = false ∨ truthy b'.sessionId = false)) := by
  refine ⟨?_, ?_, ?_⟩
  · intro hu hs
    cases backend <;> simp [POST, hu, hs, defaultSuggestions]
  · rfl
  · cases body with
    | none =>
        simp [POST]
    | some b' =>
        by_cases hu : truthy b'.userId = true
        · by_cases hs : truthy b'.sessionId = true
          · cases backend <;> simp [POST, hu, hs]
          · have hs' : truthy b'.sessionId = false := by
              revert hs; cases truthy b'.sessionId <;> simp
            simp [POST, hu, hs']
        · have hu' : truthy b'.userId = false := by
            revert hu; cases truthy b'.userId <;> simp
          simp [POST, hu']

theorem post_fixed_suggestions_witness :
    POST (some { userId := some "user_1", sessionId := some "session_1" })
        BackendResult.networkError
      = { status := 200, suggestions := defaultSuggestions, error := none } :=
  (post_fixed_suggestions
    { userId := some "user_1", sessionId := some "session_1" }
    BackendResult.networkError none).1 (by decide) (by decide)

end Alto
